import Mathlib

/-!
Verification of the caption formatting and display engine of the
LiveCaptionsOnSmartGlasses repository.

The TypeScript sources are embedded shallowly:

* `CaptionsFormatter` (src/app/utils/CaptionsFormatter.ts) becomes a pure
  state machine on `FormatterState`.  The SDK text wrapper
  (`@mentra/sdk/display-utils`, external to this repository) is abstracted
  as a function argument `wrap : String → List String` returning the lines
  the unbounded wrap produces; per-line metrics are not modelled.
* `DisplayManager`, `SettingsManager`, `TranscriptsManager` and
  `TranscriptProcessor` are embedded likewise; timers, logging and the SSE
  side effects are external I/O and are not part of the state model.
* JavaScript machine integers do not occur (all arithmetic stays small);
  strings are Lean `String`s, and JS idioms - `||` on possibly-undefined
  strings, `Array.prototype.slice(-n)`, `while (len > max) shift()` - get
  small named helpers so the translation stays recognisable.
-/

namespace LiveCaptions

/-- JS whitespace (`\s`, and what `String.prototype.trim` strips), on the
characters this app handles. -/
def isJsSpace (c : Char) : Bool :=
  c.isWhitespace

/-- JS `s.trim()`: strip whitespace from both ends (stated on character
lists so it evaluates by kernel reduction). -/
def trimChars (cs : List Char) : List Char :=
  ((cs.dropWhile isJsSpace).reverse.dropWhile isJsSpace).reverse

/-- JS `s.trim()` on strings. -/
def jsTrim (s : String) : String :=
  String.mk (trimChars s.data)

/-- JS `arr.join(sep)` (stated by structural recursion so it evaluates by
kernel reduction; agrees with the usual intercalation). -/
def jsJoin (sep : String) : List String → String
  | [] => ""
  | s :: rest => rest.foldl (fun acc t => acc ++ sep ++ t) s

/-- Truthiness of a JavaScript `string | undefined` value: `undefined` and
the empty string are falsy, every other string is truthy. -/
def strTruthy : Option String → Bool
  | none => false
  | some s => s != ""

/-- JS `a || b` for `a b : string | undefined`: `b` when `a` is falsy. -/
def jsOrStr (a b : Option String) : Option String :=
  if strTruthy a then a else b

/-- Models the JS loop `while (arr.length > max) arr.shift()`: drop elements
from the front until at most `max` remain. -/
def shiftWhileOver (l : List α) (max : Nat) : List α :=
  l.drop (l.length - max)

/-- JS `arr.slice(-n)`.  For `n = 0` the index `-0` is `0`, so the whole
array is returned; otherwise the last `n` elements (all of them when
`n ≥ length`). -/
def jsSliceLast (l : List α) (n : Nat) : List α :=
  if n = 0 then l else l.drop (l.length - n)

namespace CaptionsFormatter

/-- `TranscriptHistoryEntry` of CaptionsFormatter.ts: one finalized
utterance with its speaker information. -/
structure TranscriptHistoryEntry where
  text : String
  speakerId : Option String
  hadSpeakerChange : Bool
deriving DecidableEq, Repr

/-- The mutable fields of the `CaptionsFormatter` class.  The display width
and break mode only influence the external wrapper, which is abstracted as
the `wrap` argument of the operations, so they are not carried here. -/
structure FormatterState where
  maxFinalTranscripts : Nat
  maxLines : Nat
  finalTranscriptHistory : List TranscriptHistoryEntry
  partialSpeakerId : Option String
  partialHadSpeakerChange : Bool
deriving DecidableEq, Repr

/-- The formatter built by the constructor: empty history, no partial
speaker tracked. -/
def mkFormatter (maxFinalTranscripts maxLines : Nat) : FormatterState :=
  { maxFinalTranscripts := maxFinalTranscripts
    maxLines := maxLines
    finalTranscriptHistory := []
    partialSpeakerId := none
    partialHadSpeakerChange := false }

/-- `FormatResult` of CaptionsFormatter.ts (the `lineMetrics` field comes
from the external wrapper and is not modelled). -/
structure FormatResult where
  lines : List String
  displayText : String
  truncated : Bool
deriving DecidableEq, Repr

/-- One iteration of the history loop in `buildDisplayText`: an entry with
`hadSpeakerChange` and a truthy speaker id is put on a new line as
`[id]: text` (the line break only when something precedes it); any other
entry is appended with a single space. -/
def appendEntry (result : String) (e : TranscriptHistoryEntry) : String :=
  if e.hadSpeakerChange && strTruthy e.speakerId then
    (if result.length > 0 then result ++ "\n" else result)
      ++ "[" ++ e.speakerId.getD "" ++ "]: " ++ e.text
  else
    (if result.length > 0 then result ++ " " else result) ++ e.text

/-- `CaptionsFormatter.buildDisplayText`: fold the history, then append the
in-flight partial text (when nonempty) by exactly the same rule. -/
def buildDisplayText (hist : List TranscriptHistoryEntry)
    (partialText : String) (partialSpeakerId : Option String)
    (partialSpeakerChanged : Bool) : String :=
  let result := hist.foldl appendEntry ""
  if partialText.length > 0 then
    appendEntry result
      { text := partialText
        speakerId := partialSpeakerId
        hadSpeakerChange := partialSpeakerChanged }
  else result

/-- `CaptionsFormatter.wrapAndFormat`: wrap without a line limit (the
abstract `wrap` returns every produced line), keep the last `maxLines`
lines via `slice(-maxLines)`, record whether lines were dropped, and join
with newlines. -/
def wrapAndFormat (wrap : String → List String) (maxLines : Nat)
    (displayText : String) : FormatResult :=
  let wrapped := wrap displayText
  let lines :=
    if maxLines < wrapped.length then jsSliceLast wrapped maxLines
    else wrapped
  { lines := lines
    displayText := jsJoin "\n" lines
    truncated := decide (maxLines < wrapped.length) }

/-- `CaptionsFormatter.addToHistory`: a no-op when the transcript trims to
the empty string; otherwise push the entry and evict from the front while
over `maxFinalTranscripts`. -/
def addToHistory (st : FormatterState) (transcript : String)
    (speakerId : Option String) (speakerChanged : Bool) : FormatterState :=
  if jsTrim transcript = "" then st
  else
    { st with
      finalTranscriptHistory :=
        shiftWhileOver
          (st.finalTranscriptHistory ++
            [{ text := transcript
               speakerId := speakerId
               hadSpeakerChange := speakerChanged }])
          st.maxFinalTranscripts }

/-- `CaptionsFormatter.processInterim`: update the partial speaker tracking
(`speakerChanged` with a truthy id, or a truthy id different from the
tracked one, records a turn), then build and wrap history + partial. -/
def processInterim (wrap : String → List String) (st : FormatterState)
    (text : String) (speakerId : Option String) (speakerChanged : Bool) :
    FormatterState × FormatResult :=
  let st :=
    if speakerChanged && strTruthy speakerId then
      { st with partialSpeakerId := speakerId, partialHadSpeakerChange := true }
    else if strTruthy speakerId && speakerId != st.partialSpeakerId then
      { st with partialSpeakerId := speakerId, partialHadSpeakerChange := true }
    else st
  let displayText := buildDisplayText st.finalTranscriptHistory text
    st.partialSpeakerId st.partialHadSpeakerChange
  (st, wrapAndFormat wrap st.maxLines displayText)

/-- `CaptionsFormatter.processFinal`: resolve the effective speaker data
(arguments first, tracked partial data as fallback), clear the partial
tracking, append to history when the text is nonempty, then build and wrap
from history alone. -/
def processFinal (wrap : String → List String) (st : FormatterState)
    (text : String) (speakerId : Option String) (speakerChanged : Bool) :
    FormatterState × FormatResult :=
  let finalSpeakerId := jsOrStr speakerId st.partialSpeakerId
  let finalSpeakerChanged := speakerChanged || st.partialHadSpeakerChange
  let st := { st with partialSpeakerId := none, partialHadSpeakerChange := false }
  let st :=
    if text != "" then addToHistory st text finalSpeakerId finalSpeakerChanged
    else st
  let displayText := buildDisplayText st.finalTranscriptHistory "" none false
  (st, wrapAndFormat wrap st.maxLines displayText)

/-- `CaptionsFormatter.processTranscription`: normalise the input
(`null`/`undefined` become the empty string, then trim) and dispatch on
`isFinal`. -/
def processTranscription (wrap : String → List String) (st : FormatterState)
    (text : Option String) (isFinal : Bool) (speakerId : Option String)
    (speakerChanged : Bool) : FormatterState × FormatResult :=
  let cleanText := jsTrim (text.getD "")
  if !isFinal then processInterim wrap st cleanText speakerId speakerChanged
  else processFinal wrap st cleanText speakerId speakerChanged

/-- `CaptionsFormatter.getFinalTranscriptHistory` (the JS copy `[...]` is
identity on immutable lists). -/
def getFinalTranscriptHistory (st : FormatterState) :
    List TranscriptHistoryEntry :=
  st.finalTranscriptHistory

/-- `CaptionsFormatter.getCombinedTranscriptHistory`: the history texts
joined with single spaces. -/
def getCombinedTranscriptHistory (st : FormatterState) : String :=
  jsJoin " " (st.finalTranscriptHistory.map (·.text))

/-- An entry as the processing path itself stores it: the text is trimmed
and nonempty (`processTranscription` trims and `addToHistory` skips
empties), and the speaker id is never the empty string (a falsy id
argument is replaced by the tracked id or dropped). -/
def WellFormedEntry (e : TranscriptHistoryEntry) : Prop :=
  jsTrim e.text = e.text ∧ e.text ≠ "" ∧ e.speakerId ≠ some ""

instance : DecidablePred WellFormedEntry := fun e => by
  unfold WellFormedEntry
  infer_instance

end CaptionsFormatter

namespace DisplayManager

open CaptionsFormatter

/-- `DisplayProfile` (the SDK descriptor, restricted to the fields this
code reads): display width in pixels and maximum line count. -/
structure DisplayProfile where
  id : String
  displayWidthPx : Nat
  maxLines : Nat
deriving DecidableEq, Repr

/-- Modelled from the spec: the `G1_PROFILE` constant lives in the external
`@mentra/sdk/display-utils` package; the spec's example scenario and the
repository's tests fix its display width at 576 px and its line budget at
5 lines. -/
def G1_PROFILE : DisplayProfile :=
  { id := "even-realities-g1", displayWidthPx := 576, maxLines := 5 }

/-- The fields of the `DisplayManager` class that the formatting state
machine reads and writes.  The inactivity timer, the device-state
subscription and the logger are external side effects and are not part of
the state. -/
structure DMState where
  currentWidthSetting : Int
  currentDisplayWidthPx : Nat
  currentMaxLines : Nat
  currentWordBreaking : Bool
  currentProfile : DisplayProfile
  formatter : FormatterState
deriving DecidableEq, Repr

/-- `DisplayManager.calculateDisplayWidth`: 0 = Narrow (70 %),
1 = Medium (85 %), anything else Wide (100 %), rounded to whole pixels
(`Math.round`, computed in hundredths to stay in `Nat`). -/
def calculateDisplayWidth (widthSetting : Int) (profile : DisplayProfile) :
    Nat :=
  let widthPercent : Nat :=
    if widthSetting = 0 then 70 else if widthSetting = 1 then 85 else 100
  (profile.displayWidthPx * widthPercent + 50) / 100

/-- One step of the history-replay loop of `updateSettings` and
`updateProfile`: re-process a stored entry as a final transcription. -/
def replayStep (wrap : String → List String) (f : FormatterState)
    (e : TranscriptHistoryEntry) : FormatterState :=
  (processTranscription wrap f (some e.text) true e.speakerId
    e.hadSpeakerChange).1

/-- `DisplayManager.refreshDisplay`, restricted to its effect on the
formatter: with a nonempty history it runs
`processTranscription("", true, undefined, false)` on the formatter to
recompute the display (the emission itself is an external side effect). -/
def refreshDisplay (wrap : String → List String) (f : FormatterState) :
    FormatterState :=
  if f.finalTranscriptHistory.length = 0 then f
  else (processTranscription wrap f (some "") true none false).1

/-- `DisplayManager.updateSettings`: recompute the width in pixels, clamp
the line count to `[2, profile.maxLines]`, rebuild the formatter with the
new configuration (capacity 30), replay the saved history through it, and
refresh the display.  The new break mode and width only change the wrapper,
i.e. the `wrap` argument. -/
def updateSettings (wrap : String → List String) (dm : DMState)
    (displayWidth : Int) (numberOfLines : Int) (wordBreaking : Bool) :
    DMState :=
  let newWidthPx := calculateDisplayWidth displayWidth dm.currentProfile
  let newMaxLines := min (max 2 numberOfLines).toNat dm.currentProfile.maxLines
  let previousHistory := dm.formatter.finalTranscriptHistory
  let rebuilt := mkFormatter 30 newMaxLines
  let replayed := previousHistory.foldl (replayStep wrap) rebuilt
  { currentWidthSetting := displayWidth
    currentDisplayWidthPx := newWidthPx
    currentMaxLines := newMaxLines
    currentWordBreaking := wordBreaking
    currentProfile := dm.currentProfile
    formatter := refreshDisplay wrap replayed }

/-- `DisplayManager.getFinalTranscriptHistory`. -/
def getFinalTranscriptHistory (dm : DMState) :
    List TranscriptHistoryEntry :=
  CaptionsFormatter.getFinalTranscriptHistory dm.formatter

/-- The punctuation characters `cleanTranscriptText` strips: Western and
Chinese terminal punctuation. -/
def punctChars : List Char :=
  ['.', ',', ';', ':', '!', '?', '。', '，', '；', '：', '！', '？']

/-- Membership in the stripped punctuation class
(`/^[.,;:!?。，；：！？]+/`). -/
def isPunct (c : Char) : Bool :=
  punctChars.contains c

/-- `line.replace(/^[.,;:!?。，；：！？]+/, "")`: drop the leading run of
punctuation characters. -/
def stripLeadingPunct (cs : List Char) : List Char :=
  cs.dropWhile isPunct

/-- The regex match `line.match(/^\[\d+\]:\s*/)`: an opening bracket, one
or more ASCII digits, `]:` and any following whitespace.  Returns the
matched label (whitespace included) and the remainder of the line, or
`none` when the line does not start with such a label. -/
def matchSpeakerLabel (cs : List Char) :
    Option (List Char × List Char) :=
  match cs with
  | [] => none
  | c0 :: afterBracket =>
    if c0 = '[' then
      let ds := afterBracket.takeWhile Char.isDigit
      if ds = [] then none
      else
        match afterBracket.drop ds.length with
        | c1 :: c2 :: afterColon =>
          if c1 = ']' then
            if c2 = ':' then
              let ws := afterColon.takeWhile isJsSpace
              some (c0 :: ds ++ c1 :: c2 :: ws, afterColon.drop ws.length)
            else none
          else none
        | _ => none
    else none

/-- One line of `DisplayManager.cleanTranscriptText`: preserve a leading
numeric speaker label and strip-and-trim the rest, or strip-and-trim the
whole line when there is no such label. -/
def cleanLine (cs : List Char) : List Char :=
  match matchSpeakerLabel cs with
  | some (label, rest) => label ++ trimChars (stripLeadingPunct rest)
  | none => trimChars (stripLeadingPunct cs)

/-- JS `text.split("\n")` on character lists. -/
def splitLinesChars (cs : List Char) : List (List Char) :=
  match cs with
  | [] => [[]]
  | '\n' :: rest => [] :: splitLinesChars rest
  | c :: rest =>
    match splitLinesChars rest with
    | [] => [[c]]
    | line :: lines => (c :: line) :: lines

/-- `DisplayManager.cleanTranscriptText`: split into lines, clean each
line, and join back with newlines. -/
def cleanTranscriptText (text : String) : String :=
  jsJoin "\n"
    ((splitLinesChars text.data).map (fun line => String.mk (cleanLine line)))

end DisplayManager

namespace SettingsManager

/-- The SDK `SimpleStorage` key-value store (external), modelled as an
association list updated at the head. -/
def storeGet (store : List (String × String)) (key : String) :
    Option String :=
  (store.find? (fun kv => kv.1 == key)).map (·.2)

/-- `storage.set(key, value)`. -/
def storeSet (store : List (String × String)) (key value : String) :
    List (String × String) :=
  (key, value) :: store.filter (fun kv => kv.1 != key)

/-- The digits-prefix part of JS `parseInt(s, 10)`: the value of the
leading decimal digits, or `none` (NaN) when there is no leading digit. -/
def parseDigits (cs : List Char) : Option Nat :=
  let ds := cs.takeWhile Char.isDigit
  if ds.isEmpty then none
  else some (ds.foldl (fun acc c => acc * 10 + (c.toNat - 48)) 0)

/-- JS `parseInt(s, 10)`: skip leading whitespace, read an optional sign
and the leading decimal digits; `none` models `NaN`. -/
def jsParseInt (s : String) : Option Int :=
  match s.data.dropWhile isJsSpace with
  | '-' :: rest => (parseDigits rest).map (fun n => -(n : Int))
  | '+' :: rest => (parseDigits rest).map (fun n => (n : Int))
  | cs => (parseDigits cs).map (fun n => (n : Int))

/-- `SettingsManager.getDisplayLines`: default 3 when unset, empty or not
a number. -/
def getDisplayLines (store : List (String × String)) : Int :=
  match storeGet store "displayLines" with
  | none => 3
  | some s =>
    if s = "" then 3
    else match jsParseInt s with
      | none => 3
      | some parsed => parsed

/-- `SettingsManager.getDisplayWidth`: default 1 (Medium) when unset,
empty, not a number or outside the enum `{0, 1, 2}`. -/
def getDisplayWidth (store : List (String × String)) : Int :=
  match storeGet store "displayWidth" with
  | none => 1
  | some s =>
    if s = "" then 1
    else match jsParseInt s with
      | none => 1
      | some parsed =>
        if parsed < 0 ∨ 2 < parsed then 1 else parsed

/-- The session state `setDisplayLines` touches: the settings store and the
display manager the new values are applied to. -/
structure SessionState where
  store : List (String × String)
  display : DisplayManager.DMState
deriving DecidableEq, Repr

/-- `SettingsManager.setDisplayLines` followed by `applyToProcessor`: the
range check throws before anything is stored or applied (the `Option
String` is the error message); in range, the value is stored and
`display.updateSettings(displayWidth, displayLines)` is called with the
re-read settings (`wordBreaking` defaulting to `true`).  The SSE broadcast
is an external side effect. -/
def setDisplayLines (wrap : String → List String) (lines : Int)
    (s : SessionState) : SessionState × Option String :=
  if lines < 2 ∨ 5 < lines then
    (s, some "Lines must be between 2 and 5")
  else
    let store := storeSet s.store "displayLines" (toString lines)
    let displayLines := getDisplayLines store
    let displayWidth := getDisplayWidth store
    let display :=
      DisplayManager.updateSettings wrap s.display displayWidth displayLines
        true
    ({ store := store, display := display }, none)

end SettingsManager

namespace TranscriptsManager

/-- `TranscriptEntry` of TranscriptsManager.ts. -/
structure TranscriptEntry where
  id : String
  utteranceId : Option String
  speaker : String
  text : String
  timestamp : Option String
  isFinal : Bool
  receivedAt : Nat
deriving DecidableEq, Repr

/-- `TranscriptsManager.legacyUpdateInterim`: drop every stored interim and
append the new interim entry. -/
def legacyUpdateInterim (transcripts : List TranscriptEntry)
    (entry : TranscriptEntry) : List TranscriptEntry :=
  transcripts.filter (fun t => t.isFinal) ++ [entry]

/-- `TranscriptsManager.legacyReplaceInterim`: drop every stored interim,
append the final entry, and trim to the newest `maxTranscripts` entries. -/
def legacyReplaceInterim (maxTranscripts : Nat)
    (transcripts : List TranscriptEntry) (entry : TranscriptEntry) :
    List TranscriptEntry :=
  let ts := transcripts.filter (fun t => t.isFinal) ++ [entry]
  if maxTranscripts < ts.length then jsSliceLast ts maxTranscripts else ts

/-- The no-`utteranceId` branch of `handleTranscription` (the entry built
by `createEntry` carries the event's `isFinal` flag): finals go through
`legacyReplaceInterim`, interims through `legacyUpdateInterim`. -/
def handleLegacy (maxTranscripts : Nat)
    (transcripts : List TranscriptEntry) (entry : TranscriptEntry) :
    List TranscriptEntry :=
  if entry.isFinal then legacyReplaceInterim maxTranscripts transcripts entry
  else legacyUpdateInterim transcripts entry

end TranscriptsManager

namespace TranscriptProcessor

/-- The scan `while (splitIndex > 0 && text.charAt(splitIndex) !== " ")
splitIndex--` of `TranscriptProcessor.wrapText`: starting at the width
budget, walk down to the nearest space (index 0 when none is found). -/
def findSpaceDown (cs : List Char) : Nat → Nat
  | 0 => 0
  | k + 1 => if cs.get? (k + 1) = some ' ' then k + 1 else findSpaceDown cs k

/-- The loop body of `TranscriptProcessor.wrapText`, with explicit fuel for
termination (each source iteration consumes at least one character when the
budget is positive, so `text.length` fuel is enough; with budget 0 the
source loop does not terminate on nonempty non-space text).  The Chinese
branch delegates to `findChineseWordBoundary`, passed in abstractly as
`boundary`. -/
def wrapTextGo (isChinese : Bool) (boundary : List Char → Nat → Nat) :
    Nat → List Char → Nat → List (List Char)
  | 0, _, _ => []
  | _ + 1, [], _ => []
  | fuel + 1, c :: cs, maxLineLength =>
    let text := c :: cs
    if text.length ≤ maxLineLength then [text]
    else
      let splitIndex :=
        if isChinese then boundary text maxLineLength
        else
          let found := findSpaceDown text maxLineLength
          if found = 0 then maxLineLength else found
      let chunk := trimChars (text.take splitIndex)
      chunk ::
        wrapTextGo isChinese boundary fuel
          (trimChars (text.drop splitIndex)) maxLineLength

/-- `TranscriptProcessor.wrapText` on strings. -/
def wrapText (isChinese : Bool) (boundary : List Char → Nat → Nat)
    (text : String) (maxLineLength : Nat) : List String :=
  (wrapTextGo isChinese boundary text.data.length text.data maxLineLength).map
    String.mk

end TranscriptProcessor

end LiveCaptions

/-! ## General lemmas about the JS helpers and the formatter -/

open LiveCaptions LiveCaptions.CaptionsFormatter

lemma str_length_pos (s : String) (h : s ≠ "") : 0 < s.length := by
  cases s with
  | mk data =>
    cases data with
    | nil => exact absurd rfl h
    | cons c cs => simp [String.length]

lemma addToHistory_maxLines (st : FormatterState) (t : String)
    (sid : Option String) (sc : Bool) :
    (addToHistory st t sid sc).maxLines = st.maxLines := by
  unfold addToHistory; split <;> rfl

lemma addToHistory_maxFinalTranscripts (st : FormatterState) (t : String)
    (sid : Option String) (sc : Bool) :
    (addToHistory st t sid sc).maxFinalTranscripts = st.maxFinalTranscripts := by
  unfold addToHistory; split <;> rfl

lemma addToHistory_partialSpeakerId (st : FormatterState) (t : String)
    (sid : Option String) (sc : Bool) :
    (addToHistory st t sid sc).partialSpeakerId = st.partialSpeakerId := by
  unfold addToHistory; split <;> rfl

lemma addToHistory_partialHadSpeakerChange (st : FormatterState) (t : String)
    (sid : Option String) (sc : Bool) :
    (addToHistory st t sid sc).partialHadSpeakerChange =
      st.partialHadSpeakerChange := by
  unfold addToHistory; split <;> rfl

lemma processFinal_fst_partialSpeakerId (wrap : String → List String)
    (st : FormatterState) (t : String) (sid : Option String) (sc : Bool) :
    (processFinal wrap st t sid sc).1.partialSpeakerId = none := by
  unfold processFinal
  split <;> simp [addToHistory_partialSpeakerId]

lemma processFinal_fst_partialHadSpeakerChange (wrap : String → List String)
    (st : FormatterState) (t : String) (sid : Option String) (sc : Bool) :
    (processFinal wrap st t sid sc).1.partialHadSpeakerChange = false := by
  unfold processFinal
  split <;> simp [addToHistory_partialHadSpeakerChange]

lemma processFinal_snd (wrap : String → List String) (st : FormatterState)
    (t : String) (sid : Option String) (sc : Bool) :
    (processFinal wrap st t sid sc).2 =
      wrapAndFormat wrap st.maxLines
        (buildDisplayText (processFinal wrap st t sid sc).1.finalTranscriptHistory
          "" none false) := by
  unfold processFinal
  split <;> simp [addToHistory_maxLines]

lemma processInterim_fst_hist (wrap : String → List String)
    (st : FormatterState) (t : String) (sid : Option String) (sc : Bool) :
    (processInterim wrap st t sid sc).1.finalTranscriptHistory =
      st.finalTranscriptHistory := by
  unfold processInterim
  split
  · rfl
  · split <;> rfl

lemma processInterim_snd (wrap : String → List String) (st : FormatterState)
    (t : String) (sid : Option String) (sc : Bool) :
    (processInterim wrap st t sid sc).2 =
      wrapAndFormat wrap st.maxLines
        (buildDisplayText (processInterim wrap st t sid sc).1.finalTranscriptHistory
          t (processInterim wrap st t sid sc).1.partialSpeakerId
          (processInterim wrap st t sid sc).1.partialHadSpeakerChange) := by
  unfold processInterim
  split
  · rfl
  · split <;> rfl

/-! ## Claim C1 -/

/-- Claim C1: every `processTranscription` result is produced by
`wrapAndFormat` on the built display text, and `wrapAndFormat` first wraps
with an unbounded line limit (the abstract `wrap` returns all produced
lines) and keeps exactly the last `maxLines` of them (all of them when no
more than `maxLines` were produced); `truncated` holds exactly when the
unbounded wrap produced more than `maxLines` lines, and `displayText` is
the newline-join of the kept lines, which form a suffix - the tail, never
the head - of the full wrapped text.  The hypothesis `1 ≤ maxLines` holds
for every formatter the program builds (profiles have 4 or 5 lines and
`DisplayManager` clamps the setting to at least 2). -/
theorem claim_C1_tail_trim (wrap : String → List String) (maxLines : Nat)
    (hml : 1 ≤ maxLines) (displayText : String) :
    (wrapAndFormat wrap maxLines displayText).lines =
      (if maxLines < (wrap displayText).length
        then (wrap displayText).drop ((wrap displayText).length - maxLines)
        else wrap displayText)
    ∧ (wrapAndFormat wrap maxLines displayText).lines.length =
        min maxLines (wrap displayText).length
    ∧ ((wrapAndFormat wrap maxLines displayText).truncated = true ↔
        maxLines < (wrap displayText).length)
    ∧ (wrapAndFormat wrap maxLines displayText).displayText =
        jsJoin "\n" (wrapAndFormat wrap maxLines displayText).lines
    ∧ (wrapAndFormat wrap maxLines displayText).lines <:+ wrap displayText
    ∧ ∀ (st : FormatterState) (text : Option String) (isFinal : Bool)
        (speakerId : Option String) (speakerChanged : Bool),
        st.maxLines = maxLines →
        (processTranscription wrap st text isFinal speakerId speakerChanged).2 =
          wrapAndFormat wrap maxLines
            (buildDisplayText
              (processTranscription wrap st text isFinal speakerId
                speakerChanged).1.finalTranscriptHistory
              (if isFinal then "" else jsTrim (text.getD ""))
              (processTranscription wrap st text isFinal speakerId
                speakerChanged).1.partialSpeakerId
              (processTranscription wrap st text isFinal speakerId
                speakerChanged).1.partialHadSpeakerChange) := by
  have hslice : jsSliceLast (wrap displayText) maxLines =
      (wrap displayText).drop ((wrap displayText).length - maxLines) := by
    unfold jsSliceLast
    rw [if_neg (by omega)]
  have hdef : wrapAndFormat wrap maxLines displayText =
      { lines := if maxLines < (wrap displayText).length
          then jsSliceLast (wrap displayText) maxLines else wrap displayText
        displayText := jsJoin "\n"
          (if maxLines < (wrap displayText).length
            then jsSliceLast (wrap displayText) maxLines else wrap displayText)
        truncated := decide (maxLines < (wrap displayText).length) } := rfl
  refine ⟨?_, ?_, ?_, ?_, ?_, ?_⟩
  · rw [hdef]
    split
    · rw [hslice]
    · rfl
  · rw [hdef]
    split
    · rename_i hlt
      simp only [hslice, List.length_drop]
      omega
    · rename_i hge
      simp only [not_lt] at hge
      simp [Nat.min_eq_right hge]
  · rw [hdef]
    simp
  · rw [hdef]
  · rw [hdef]
    split
    · rw [hslice]
      exact List.drop_suffix _ _
    · exact List.suffix_refl _
  · intro st text isFinal speakerId speakerChanged hst
    cases isFinal with
    | true =>
      have hPT : processTranscription wrap st text true speakerId speakerChanged
          = processFinal wrap st (jsTrim (text.getD "")) speakerId
              speakerChanged := rfl
      rw [hPT, processFinal_snd, hst, processFinal_fst_partialSpeakerId,
        processFinal_fst_partialHadSpeakerChange]
      rfl
    | false =>
      have hPT : processTranscription wrap st text false speakerId speakerChanged
          = processInterim wrap st (jsTrim (text.getD "")) speakerId
              speakerChanged := rfl
      rw [hPT, processInterim_snd, hst, processInterim_fst_hist]
      rfl

/-- Witness for C1 at a concrete wrap result of three lines and a
two-line budget. -/
theorem claim_C1_tail_trim_witness :
    1 ≤ 2 ∧
    ((wrapAndFormat (fun _ => ["a", "b", "c"]) 2 "x").truncated = true ↔
      2 < (["a", "b", "c"] : List String).length) :=
  ⟨by decide, (claim_C1_tail_trim (fun _ => ["a", "b", "c"]) 2 (by decide) "x").2.2.1⟩

/-! ## Claim C3 -/

/-- Counterexample to claim C3: an interim call that signals
`speakerChanged = true` but supplies no speaker id records no turn
boundary, because both branches of the tracking code also require a truthy
`speakerId`; the claim says the explicit signal alone suffices. -/
theorem claim_C3_counterexample :
    (processTranscription (fun s => [s]) (mkFormatter 30 5)
      (some "Hello") false none true).1.partialHadSpeakerChange = false := by
  decide

/-- Claim C3 as amended: on an interim call the turn flag for the current
partial becomes true exactly when it already was, or when a truthy
(present and nonempty) `speakerId` is supplied and either the caller
signals `speakerChanged = true` or that id differs from the id already
tracked.  A `speakerChanged` signal without a truthy id records nothing. -/
theorem claim_C3_amended_turn_recording (wrap : String → List String)
    (st : FormatterState) (text : Option String) (speakerId : Option String)
    (speakerChanged : Bool) :
    (processTranscription wrap st text false speakerId
        speakerChanged).1.partialHadSpeakerChange =
      (st.partialHadSpeakerChange ||
        (strTruthy speakerId &&
          (speakerChanged || speakerId != st.partialSpeakerId))) := by
  show (processInterim wrap st (jsTrim (text.getD "")) speakerId
      speakerChanged).1.partialHadSpeakerChange = _
  unfold processInterim
  cases hsc : speakerChanged <;> cases hid : strTruthy speakerId <;>
    by_cases heq : speakerId = st.partialSpeakerId <;>
      simp_all [bne]

/-! ## Claim C6 -/

/-- Counterexample to claim C6: wrapping the empty string returns zero
lines in both break modes (the `while (text !== "")` loop body never
runs), while the claim demands at least one line. -/
theorem claim_C6_counterexample :
    TranscriptProcessor.wrapText false (fun _ n => n) "" 10 = []
    ∧ TranscriptProcessor.wrapText true (fun _ n => n) "" 10 = []
    ∧ ¬ 1 ≤ (TranscriptProcessor.wrapText false (fun _ n => n) "" 10).length := by
  decide

/-- Claim C6 as amended: for every width budget and break mode, wrapping
the empty string returns zero lines (not one); a nonempty string yields at
least one line for a positive width budget in the non-Chinese mode (with
width 0 the source loop does not terminate, and in the Chinese mode
termination depends on the external word-boundary function). -/
theorem claim_C6_amended_empty_wrap (isChinese : Bool)
    (boundary : List Char → Nat → Nat) (text : String) (m : Nat) :
    TranscriptProcessor.wrapText isChinese boundary "" m = []
    ∧ (1 ≤ m → text ≠ "" →
        1 ≤ (TranscriptProcessor.wrapText false boundary text m).length) := by
  constructor
  · rfl
  · intro hm htext
    unfold TranscriptProcessor.wrapText
    cases hdata : text.data with
    | nil =>
      exact absurd (by cases text with | mk d => simp_all) htext
    | cons c cs =>
      simp only [List.length_cons, TranscriptProcessor.wrapTextGo]
      split <;> simp

/-- Witness for C6's amended claim: a nonempty input with a positive
budget wraps to at least one line. -/
theorem claim_C6_amended_empty_wrap_witness :
    1 ≤ 5 ∧ ("hi" : String) ≠ "" ∧
    1 ≤ (TranscriptProcessor.wrapText false (fun _ n => n) "hi" 5).length :=
  ⟨by decide, by decide,
    (claim_C6_amended_empty_wrap false (fun _ n => n) "hi" 5).2 (by decide)
      (by decide)⟩

/-! ## Claim C8 -/

/-- Claim C8: a final call with `null` text, and generally any final call
whose text trims to the empty string, leaves the transcript history
unchanged (the embedding is a total function, so no exception is
modelled), and no stored entry ever has empty text. -/
theorem claim_C8_empty_final_no_store (wrap : String → List String)
    (st : FormatterState) (speakerId : Option String) (speakerChanged : Bool) :
    (processTranscription wrap st none true speakerId
        speakerChanged).1.finalTranscriptHistory = st.finalTranscriptHistory
    ∧ (∀ t : String, jsTrim t = "" →
        (processTranscription wrap st (some t) true speakerId
            speakerChanged).1.finalTranscriptHistory = st.finalTranscriptHistory)
    ∧ (∀ (text : Option String) (isFinal : Bool) (e : TranscriptHistoryEntry),
        (∀ e' ∈ st.finalTranscriptHistory, e'.text ≠ "") →
        e ∈ (processTranscription wrap st text isFinal speakerId
            speakerChanged).1.finalTranscriptHistory →
        e.text ≠ "") := by
  have hfinal : ∀ t : String, jsTrim t = "" →
      (processTranscription wrap st (some t) true speakerId
          speakerChanged).1.finalTranscriptHistory = st.finalTranscriptHistory := by
    intro t ht
    show (processFinal wrap st (jsTrim t) speakerId
        speakerChanged).1.finalTranscriptHistory = _
    rw [ht]
    unfold processFinal
    simp
  refine ⟨hfinal "" rfl, hfinal, ?_⟩
  intro text isFinal e hall hmem
  cases isFinal with
  | false =>
    rw [show (processTranscription wrap st text false speakerId speakerChanged).1
        = (processInterim wrap st (jsTrim (text.getD "")) speakerId speakerChanged).1
        from rfl, processInterim_fst_hist] at hmem
    exact hall e hmem
  | true =>
    rw [show (processTranscription wrap st text true speakerId speakerChanged).1
        = (processFinal wrap st (jsTrim (text.getD "")) speakerId speakerChanged).1
        from rfl] at hmem
    unfold processFinal at hmem
    by_cases hct : jsTrim (text.getD "") = ""
    · simp only [hct, bne_self_eq_false, if_neg, Bool.false_eq_true,
        not_false_eq_true, if_false] at hmem
      exact hall e hmem
    · have hne : (jsTrim (text.getD "") != "") = true := by
        simp [bne, hct]
      simp only [hne, if_true] at hmem
      unfold addToHistory at hmem
      by_cases hct2 : jsTrim (jsTrim (text.getD "")) = ""
      · rw [if_pos hct2] at hmem
        exact hall e hmem
      · rw [if_neg hct2] at hmem
        simp only at hmem
        unfold shiftWhileOver at hmem
        have hmem' := List.mem_of_mem_drop hmem
        rcases List.mem_append.mp hmem' with h | h
        · exact hall e h
        · have he : e = ⟨jsTrim (text.getD ""),
              jsOrStr speakerId st.partialSpeakerId,
              speakerChanged || st.partialHadSpeakerChange⟩ := by
            simpa using h
          rw [he]
          exact hct

/-- Witness for C8: a whitespace-only final adds nothing to an empty
history. -/
theorem claim_C8_empty_final_no_store_witness :
    jsTrim "   " = "" ∧
    (processTranscription (fun s => [s]) (mkFormatter 30 5) (some "   ") true
        none false).1.finalTranscriptHistory = [] :=
  ⟨by decide,
    (claim_C8_empty_final_no_store (fun s => [s]) (mkFormatter 30 5) none
      false).2.1 "   " (by decide)⟩

/-! ## Claim C10 -/

/-- Claim C10: after any legacy (no `utteranceId`) event, the transcript
list holds at most one interim entry, and every entry except possibly the
last is final (so an interim, when present, is the last element). -/
theorem claim_C10_single_interim (maxTranscripts : Nat)
    (transcripts : List TranscriptsManager.TranscriptEntry)
    (entry : TranscriptsManager.TranscriptEntry) :
    ((TranscriptsManager.handleLegacy maxTranscripts transcripts
        entry).filter (fun t => !t.isFinal)).length ≤ 1
    ∧ ∀ t ∈ (TranscriptsManager.handleLegacy maxTranscripts transcripts
        entry).dropLast, t.isFinal = true := by
  unfold TranscriptsManager.handleLegacy
  by_cases hf : entry.isFinal
  · rw [if_pos hf]
    unfold TranscriptsManager.legacyReplaceInterim
    have hbase : ∀ t ∈ transcripts.filter (fun t => t.isFinal) ++ [entry],
        t.isFinal = true := by
      intro t ht
      rcases List.mem_append.mp ht with h | h
      · exact (List.mem_filter.mp h).2
      · simp only [List.mem_singleton] at h
        rw [h]; exact hf
    have hres : ∀ t ∈ (if maxTranscripts <
          (transcripts.filter (fun t => t.isFinal) ++ [entry]).length
        then jsSliceLast (transcripts.filter (fun t => t.isFinal) ++ [entry])
          maxTranscripts
        else transcripts.filter (fun t => t.isFinal) ++ [entry]),
        t.isFinal = true := by
      intro t ht
      apply hbase
      revert ht
      split
      · unfold jsSliceLast
        split
        · exact fun ht => ht
        · exact fun ht => List.mem_of_mem_drop ht
      · exact fun ht => ht
    constructor
    · have : ((if maxTranscripts <
            (transcripts.filter (fun t => t.isFinal) ++ [entry]).length
          then jsSliceLast (transcripts.filter (fun t => t.isFinal) ++ [entry])
            maxTranscripts
          else transcripts.filter (fun t => t.isFinal) ++ [entry]).filter
            (fun t => !t.isFinal)) = [] := by
        rw [List.filter_eq_nil_iff]
        intro t ht
        simp [hres t ht]
      rw [this]
      simp
    · intro t ht
      exact hres t (List.dropLast_subset _ ht)
  · rw [if_neg hf]
    unfold TranscriptsManager.legacyUpdateInterim
    constructor
    · rw [List.filter_append, List.filter_filter]
      have : (transcripts.filter (fun t => !t.isFinal && t.isFinal)) = [] := by
        rw [List.filter_eq_nil_iff]
        intro t _
        cases t.isFinal <;> decide
      rw [this]
      cases hfe : entry.isFinal <;> simp [List.filter, hfe]
    · intro t ht
      rw [List.dropLast_concat] at ht
      exact (List.mem_filter.mp ht).2

/-! ## Claim C4 -/

lemma buildDisplayText_empty_inflight (hist : List TranscriptHistoryEntry)
    (pSid : Option String) (pCh : Bool) :
    buildDisplayText hist "" pSid pCh = hist.foldl appendEntry "" := rfl

lemma buildDisplayText_append_entry (hist : List TranscriptHistoryEntry)
    (e : TranscriptHistoryEntry) :
    buildDisplayText (hist ++ [e]) "" none false =
      appendEntry (buildDisplayText hist "" none false) e := by
  rw [buildDisplayText_empty_inflight, buildDisplayText_empty_inflight,
    List.foldl_append]
  rfl

/-- Claim C4: in the display text built from history, an entry flagged as
opening a new speaker turn with a (nonempty) speaker id is rendered as
`[<speakerId>]: <text>` preceded by a forced line break (none when it is
the first content); an entry not opening a turn is appended to the
preceding content with exactly one space and no break.  Consequently two
consecutive finals with the same speaker and no turn flag on the second
render exactly one label, and two finals with different speakers render
two labels, each starting its own line. -/
theorem claim_C4_label_rendering (hist : List TranscriptHistoryEntry)
    (e : TranscriptHistoryEntry) (s : String) :
    (e.speakerId = some s → s ≠ "" → e.hadSpeakerChange = true →
      buildDisplayText hist "" none false ≠ "" →
      buildDisplayText (hist ++ [e]) "" none false =
        buildDisplayText hist "" none false ++ "\n" ++ "[" ++ s ++ "]: "
          ++ e.text)
    ∧ (e.speakerId = some s → s ≠ "" → e.hadSpeakerChange = true →
      buildDisplayText hist "" none false = "" →
      buildDisplayText (hist ++ [e]) "" none false =
        "[" ++ s ++ "]: " ++ e.text)
    ∧ (e.hadSpeakerChange = false →
      buildDisplayText hist "" none false ≠ "" →
      buildDisplayText (hist ++ [e]) "" none false =
        buildDisplayText hist "" none false ++ " " ++ e.text)
    ∧ buildDisplayText
        [⟨"Hello", some "1", true⟩, ⟨"World", some "1", false⟩] "" none false
        = "[1]: Hello World"
    ∧ buildDisplayText
        [⟨"Hello world", some "1", true⟩, ⟨"Hi there", some "2", true⟩]
        "" none false
        = "[1]: Hello world\n[2]: Hi there" := by
  refine ⟨?_, ?_, ?_, by decide, by decide⟩
  · intro hsid hs hch hne
    rw [buildDisplayText_append_entry]
    unfold appendEntry
    rw [if_pos (by simp [hch, strTruthy, hsid, bne, hs]),
      if_pos (str_length_pos _ hne), hsid]
    rfl
  · intro hsid hs hch hemp
    rw [buildDisplayText_append_entry, hemp]
    unfold appendEntry
    rw [if_pos (by simp [hch, strTruthy, hsid, bne, hs]),
      if_neg (by decide), hsid]
    rfl
  · intro hch hne
    rw [buildDisplayText_append_entry]
    unfold appendEntry
    rw [if_neg (by simp [hch]), if_pos (str_length_pos _ hne)]

/-- Witness for C4: a second speaker's final starts a new labelled line,
and a continuation without a turn flag is joined by a single space. -/
theorem claim_C4_label_rendering_witness :
    buildDisplayText
        ([⟨"Hello", some "1", true⟩] ++ [⟨"Hi", some "2", true⟩]) "" none false
      = buildDisplayText [⟨"Hello", some "1", true⟩] "" none false ++ "\n"
          ++ "[" ++ "2" ++ "]: " ++ "Hi"
    ∧ buildDisplayText
        ([⟨"Hello", some "1", true⟩] ++ [⟨"World", none, false⟩]) "" none false
      = buildDisplayText [⟨"Hello", some "1", true⟩] "" none false ++ " "
          ++ "World" :=
  ⟨(claim_C4_label_rendering [⟨"Hello", some "1", true⟩]
      ⟨"Hi", some "2", true⟩ "2").1 rfl (by decide) rfl (by decide),
    (claim_C4_label_rendering [⟨"Hello", some "1", true⟩]
      ⟨"World", none, false⟩ "unused").2.2.1 rfl (by decide)⟩

/-! ## Claim C5 -/

lemma dropWhile_dropWhile (p : α → Bool) (l : List α) :
    (l.dropWhile p).dropWhile p = l.dropWhile p := by
  induction l with
  | nil => rfl
  | cons a l ih =>
    by_cases h : p a <;> simp [List.dropWhile_cons, h, ih]

lemma dropWhile_head_false {p : α → Bool} :
    ∀ {l : List α} {c : α} {rest : List α},
      l.dropWhile p = c :: rest → p c = false := by
  intro l
  induction l with
  | nil => intro c rest h; simp at h
  | cons a l ih =>
    intro c rest h
    by_cases hp : p a
    · rw [List.dropWhile_cons, if_pos hp] at h
      exact ih h
    · rw [List.dropWhile_cons, if_neg hp] at h
      cases h
      simpa using hp

lemma trimChars_prefix (cs : List Char) :
    trimChars cs <+: cs.dropWhile isJsSpace := by
  have h := List.reverse_prefix.mpr
    (List.dropWhile_suffix (l := (cs.dropWhile isJsSpace).reverse) isJsSpace)
  rw [List.reverse_reverse] at h
  exact h

lemma trimChars_idem (cs : List Char) :
    trimChars (trimChars cs) = trimChars cs := by
  have L1 : (trimChars cs).dropWhile isJsSpace = trimChars cs := by
    cases ht : trimChars cs with
    | nil => rfl
    | cons c rest =>
      have hpre := trimChars_prefix cs
      rw [ht] at hpre
      obtain ⟨t, hteq⟩ := hpre
      have hd : cs.dropWhile isJsSpace = c :: (rest ++ t) := by
        rw [← hteq]; rfl
      have hc := dropWhile_head_false hd
      rw [List.dropWhile_cons, if_neg (by simp [hc])]
  have hE : (trimChars cs).reverse =
      (cs.dropWhile isJsSpace).reverse.dropWhile isJsSpace := by
    show ((cs.dropWhile isJsSpace).reverse.dropWhile
        isJsSpace).reverse.reverse = _
    rw [List.reverse_reverse]
  rw [show trimChars (trimChars cs) =
      (((trimChars cs).dropWhile isJsSpace).reverse.dropWhile
        isJsSpace).reverse from rfl]
  rw [L1, hE, dropWhile_dropWhile, ← hE, List.reverse_reverse]

lemma jsTrim_idem (s : String) : jsTrim (jsTrim s) = jsTrim s := by
  show String.mk (trimChars (trimChars s.data)) = _
  rw [trimChars_idem]
  rfl

lemma map_shiftWhileOver (f : α → β) (l : List α) (max : Nat) :
    (shiftWhileOver l max).map f = shiftWhileOver (l.map f) max := by
  unfold shiftWhileOver
  rw [List.map_drop, List.length_map]

lemma processTranscription_final_cap (wrap : String → List String)
    (st : FormatterState) (t : Option String) (sid : Option String)
    (sc : Bool) :
    (processTranscription wrap st t true sid sc).1.maxFinalTranscripts =
      st.maxFinalTranscripts := by
  show (processFinal wrap st (jsTrim (t.getD "")) sid sc).1.maxFinalTranscripts = _
  unfold processFinal
  split <;> simp [addToHistory_maxFinalTranscripts]

lemma processFinal_hist_texts (wrap : String → List String)
    (st : FormatterState) (t : Option String) (sid : Option String)
    (sc : Bool) :
    ((processTranscription wrap st t true sid
        sc).1.finalTranscriptHistory).map (·.text) =
      if jsTrim (t.getD "") = ""
        then st.finalTranscriptHistory.map (·.text)
        else shiftWhileOver
          (st.finalTranscriptHistory.map (·.text) ++ [jsTrim (t.getD "")])
          st.maxFinalTranscripts := by
  have hPT : (processTranscription wrap st t true sid sc).1 =
      (processFinal wrap st (jsTrim (t.getD "")) sid sc).1 := rfl
  rw [hPT]
  unfold processFinal
  by_cases hct : jsTrim (t.getD "") = ""
  · rw [if_pos hct]
    have hbne : (jsTrim (t.getD "") != "") = false := by simp [bne, hct]
    simp only [hbne, Bool.false_eq_true, if_false]
  · rw [if_neg hct]
    have hbne : (jsTrim (t.getD "") != "") = true := by simp [bne, hct]
    simp only [hbne, if_true]
    unfold addToHistory
    rw [if_neg (by rw [jsTrim_idem]; exact hct)]
    simp only
    rw [map_shiftWhileOver, List.map_append]
    rfl

lemma shiftWhileOver_shiftWhileOver_append (acc : List α) (x : α)
    (cap : Nat) :
    shiftWhileOver (shiftWhileOver acc cap ++ [x]) cap =
      shiftWhileOver (acc ++ [x]) cap := by
  unfold shiftWhileOver
  by_cases h : acc.length ≤ cap
  · rw [Nat.sub_eq_zero_of_le h, List.drop_zero]
  · push_neg at h
    have hlen : (acc.drop (acc.length - cap)).length = cap := by
      rw [List.length_drop]; omega
    rw [List.length_append, List.length_append, hlen,
      List.length_singleton]
    by_cases hc0 : cap = 0
    · subst hc0
      have hL : List.drop (acc.length - 0) acc = [] :=
        List.drop_eq_nil_of_le (by omega)
      rw [hL, List.nil_append]
      have hR : List.drop (acc.length + 1 - 0) (acc ++ [x]) = [] :=
        List.drop_eq_nil_of_le (by rw [List.length_append]; simp)
      rw [hR]
      rfl
    · rw [show cap + 1 - cap = 1 from by omega]
      rw [List.drop_append_of_le_length (by rw [hlen]; omega)]
      rw [List.drop_drop]
      rw [List.drop_append_of_le_length (by omega)]
      rw [show acc.length - cap + 1 = acc.length + 1 - cap from by omega]

lemma fold_final_hist_texts (wrap : String → List String) (cap : Nat) :
    ∀ (events : List (Option String × Option String × Bool))
      (st : FormatterState) (acc : List String),
    st.maxFinalTranscripts = cap →
    st.finalTranscriptHistory.map (·.text) = shiftWhileOver acc cap →
    ((events.foldl
        (fun f ev => (processTranscription wrap f ev.1 true ev.2.1 ev.2.2).1)
        st).finalTranscriptHistory).map (·.text) =
      shiftWhileOver
        (acc ++ (events.map (fun ev => jsTrim (ev.1.getD ""))).filter
          (fun t => t != ""))
        cap := by
  intro events
  induction events with
  | nil =>
    intro st acc hcap hacc
    simpa using hacc
  | cons ev rest ih =>
    intro st acc hcap hacc
    rw [List.foldl_cons]
    have hcap' : ((processTranscription wrap st ev.1 true ev.2.1
        ev.2.2).1).maxFinalTranscripts = cap := by
      rw [processTranscription_final_cap]; exact hcap
    by_cases hct : jsTrim (ev.1.getD "") = ""
    · have hh : ((processTranscription wrap st ev.1 true ev.2.1
          ev.2.2).1).finalTranscriptHistory.map (·.text) =
          shiftWhileOver acc cap := by
        rw [processFinal_hist_texts, if_pos hct, hacc]
      rw [ih _ acc hcap' hh]
      have hfil : ((ev :: rest).map
            (fun ev => jsTrim (ev.1.getD ""))).filter (fun t => t != "") =
          (rest.map (fun ev => jsTrim (ev.1.getD ""))).filter
            (fun t => t != "") := by
        rw [List.map_cons, List.filter_cons]
        simp [bne, hct]
      rw [hfil]
    · have hh : ((processTranscription wrap st ev.1 true ev.2.1
          ev.2.2).1).finalTranscriptHistory.map (·.text) =
          shiftWhileOver (acc ++ [jsTrim (ev.1.getD "")]) cap := by
        rw [processFinal_hist_texts, if_neg hct, hacc, hcap,
          shiftWhileOver_shiftWhileOver_append]
      rw [ih _ (acc ++ [jsTrim (ev.1.getD "")]) hcap' hh, List.append_assoc]
      have hfil : ((ev :: rest).map
            (fun ev => jsTrim (ev.1.getD ""))).filter (fun t => t != "") =
          jsTrim (ev.1.getD "") ::
            (rest.map (fun ev => jsTrim (ev.1.getD ""))).filter
              (fun t => t != "") := by
        rw [List.map_cons, List.filter_cons]
        simp [bne, hct]
      rw [hfil]
      rfl

/-- Claim C5: after any sequence of final-only calls starting from a fresh
formatter of capacity `cap` (the default is 30), the combined transcript
history is the space-join of the trimmed nonempty texts, in arrival order,
restricted to the most recent `cap` of them (the oldest evicted first). -/
theorem claim_C5_combined_history (wrap : String → List String)
    (cap maxLines : Nat)
    (events : List (Option String × Option String × Bool)) :
    getCombinedTranscriptHistory
        (events.foldl
          (fun f ev => (processTranscription wrap f ev.1 true ev.2.1 ev.2.2).1)
          (mkFormatter cap maxLines)) =
      jsJoin " "
        (shiftWhileOver
          ((events.map (fun ev => jsTrim (ev.1.getD ""))).filter
            (fun t => t != ""))
          cap) := by
  have h := fold_final_hist_texts wrap cap events (mkFormatter cap maxLines)
    [] rfl (by simp [mkFormatter, shiftWhileOver])
  unfold getCombinedTranscriptHistory
  rw [h, List.nil_append]

/-! ## Claim C2 -/

lemma jsOrStr_none_of_wf (sid : Option String) (h : sid ≠ some "") :
    jsOrStr sid none = sid := by
  cases hsp : sid with
  | none => rfl
  | some s =>
    have hs : s ≠ "" := by
      intro he
      subst he
      exact h hsp
    unfold jsOrStr strTruthy
    rw [if_pos (by simp [bne, hs])]

lemma replayStep_hist (wrap : String → List String) (f : FormatterState)
    (e : TranscriptHistoryEntry) (hwt : jsTrim e.text = e.text)
    (hwe : e.text ≠ "") (hws : e.speakerId ≠ some "")
    (hsid : f.partialSpeakerId = none)
    (hhc : f.partialHadSpeakerChange = false)
    (hroom : f.finalTranscriptHistory.length + 1 ≤ f.maxFinalTranscripts) :
    (DisplayManager.replayStep wrap f e).finalTranscriptHistory =
      f.finalTranscriptHistory ++ [e] := by
  show (processFinal wrap f (jsTrim e.text) e.speakerId
      e.hadSpeakerChange).1.finalTranscriptHistory = _
  rw [hwt]
  unfold processFinal
  have hbne : (e.text != "") = true := by simp [bne, hwe]
  simp only [hbne, if_true]
  unfold addToHistory
  rw [if_neg (by rw [hwt]; exact hwe)]
  simp only
  unfold shiftWhileOver
  rw [show (f.finalTranscriptHistory ++
      [(⟨e.text, jsOrStr e.speakerId f.partialSpeakerId,
        e.hadSpeakerChange || f.partialHadSpeakerChange⟩ :
        TranscriptHistoryEntry)]).length - f.maxFinalTranscripts = 0 from by
    rw [List.length_append, List.length_singleton]
    omega]
  rw [List.drop_zero]
  congr 1
  rw [hsid, jsOrStr_none_of_wf e.speakerId hws, hhc, Bool.or_false]

lemma replay_appends (wrap : String → List String) :
    ∀ (H : List TranscriptHistoryEntry) (f : FormatterState),
    f.partialSpeakerId = none → f.partialHadSpeakerChange = false →
    (∀ e ∈ H, WellFormedEntry e) →
    f.finalTranscriptHistory.length + H.length ≤ f.maxFinalTranscripts →
    (H.foldl (DisplayManager.replayStep wrap) f).finalTranscriptHistory =
      f.finalTranscriptHistory ++ H := by
  intro H
  induction H with
  | nil =>
    intro f _ _ _ _
    simp
  | cons e H ih =>
    intro f hsid hhc hwf hlen
    rw [List.foldl_cons]
    obtain ⟨hwt, hwe, hws⟩ := hwf e (List.mem_cons_self e H)
    rw [List.length_cons] at hlen
    have hhist := replayStep_hist wrap f e hwt hwe hws hsid hhc (by omega)
    have hcap : (DisplayManager.replayStep wrap f e).maxFinalTranscripts =
        f.maxFinalTranscripts :=
      processTranscription_final_cap wrap f (some e.text) e.speakerId
        e.hadSpeakerChange
    have hps : (DisplayManager.replayStep wrap f e).partialSpeakerId = none :=
      processFinal_fst_partialSpeakerId wrap f (jsTrim e.text) e.speakerId
        e.hadSpeakerChange
    have hpc : (DisplayManager.replayStep wrap f e).partialHadSpeakerChange =
        false :=
      processFinal_fst_partialHadSpeakerChange wrap f (jsTrim e.text)
        e.speakerId e.hadSpeakerChange
    rw [ih (DisplayManager.replayStep wrap f e) hps hpc
      (fun x hx => hwf x (List.mem_cons_of_mem e hx))
      (by rw [hhist, hcap, List.length_append, List.length_singleton]
          omega)]
    rw [hhist, List.append_assoc]
    rfl

lemma refreshDisplay_hist (wrap : String → List String)
    (f : FormatterState) :
    (DisplayManager.refreshDisplay wrap f).finalTranscriptHistory =
      f.finalTranscriptHistory := by
  unfold DisplayManager.refreshDisplay
  split
  · rfl
  · show (processFinal wrap f (jsTrim "") none
        false).1.finalTranscriptHistory = _
    unfold processFinal
    rw [show jsTrim "" = "" from rfl]
    simp

/-- Claim C2: a settings change through `DisplayManager.updateSettings`
(any width setting, line count and word-breaking flag) rebuilds the
formatter and replays the saved history, after which
`getFinalTranscriptHistory` returns exactly the same entries (text,
speaker id and turn flag) in the same order as before.  The hypotheses are
the invariants the running system maintains on its own history: every
stored entry is well formed (trimmed nonempty text, no empty speaker id)
and there are at most 30 of them (every formatter the manager builds has
capacity 30). -/
theorem claim_C2_settings_preserve_history (wrap : String → List String)
    (dm : DisplayManager.DMState) (displayWidth numberOfLines : Int)
    (wordBreaking : Bool)
    (hwf : ∀ e ∈ dm.formatter.finalTranscriptHistory, WellFormedEntry e)
    (hlen : dm.formatter.finalTranscriptHistory.length ≤ 30) :
    DisplayManager.getFinalTranscriptHistory
        (DisplayManager.updateSettings wrap dm displayWidth numberOfLines
          wordBreaking) =
      DisplayManager.getFinalTranscriptHistory dm := by
  show (DisplayManager.refreshDisplay wrap
      (dm.formatter.finalTranscriptHistory.foldl
        (DisplayManager.replayStep wrap)
        (mkFormatter 30
          (min (max 2 numberOfLines).toNat
            dm.currentProfile.maxLines)))).finalTranscriptHistory =
    dm.formatter.finalTranscriptHistory
  rw [refreshDisplay_hist]
  rw [replay_appends wrap dm.formatter.finalTranscriptHistory _ rfl rfl hwf
    (by simp only [mkFormatter, List.length_nil]
        omega)]
  rfl

/-- Witness for C2: a two-entry history survives a Narrow, 3-line,
word-mode settings change unchanged. -/
theorem claim_C2_settings_preserve_history_witness :
    (∀ e ∈ [(⟨"Hello", some "1", true⟩ : TranscriptHistoryEntry),
        ⟨"World", none, false⟩], WellFormedEntry e)
    ∧ DisplayManager.getFinalTranscriptHistory
        (DisplayManager.updateSettings (fun s => [s])
          ⟨2, 576, 5, true, DisplayManager.G1_PROFILE,
            { mkFormatter 30 5 with
              finalTranscriptHistory :=
                [⟨"Hello", some "1", true⟩, ⟨"World", none, false⟩] }⟩
          0 3 false) =
      [⟨"Hello", some "1", true⟩, ⟨"World", none, false⟩] :=
  ⟨by decide,
    claim_C2_settings_preserve_history (fun s => [s])
      ⟨2, 576, 5, true, DisplayManager.G1_PROFILE,
        { mkFormatter 30 5 with
          finalTranscriptHistory :=
            [⟨"Hello", some "1", true⟩, ⟨"World", none, false⟩] }⟩
      0 3 false (by decide) (by decide)⟩

/-! ## Claim C7 -/

lemma takeWhile_append_of_all {p : α → Bool} :
    ∀ (l1 l2 : List α), (∀ c ∈ l1, p c = true) →
      (∀ c, l2.head? = some c → p c = false) →
      (l1 ++ l2).takeWhile p = l1 := by
  intro l1
  induction l1 with
  | nil =>
    intro l2 _ h2
    cases l2 with
    | nil => rfl
    | cons c cs =>
      rw [List.nil_append, List.takeWhile_cons, if_neg (by simp [h2 c rfl])]
  | cons a l1 ih =>
    intro l2 h1 h2
    rw [List.cons_append, List.takeWhile_cons,
      if_pos (h1 a (List.mem_cons_self a l1))]
    rw [ih l2 (fun c hc => h1 c (List.mem_cons_of_mem a hc)) h2]

lemma matchSpeakerLabel_parse (ds ws rest : List Char)
    (hds : ds ≠ []) (hd : ∀ c ∈ ds, c.isDigit = true)
    (hw : ∀ c ∈ ws, isJsSpace c = true)
    (hr : ∀ c, rest.head? = some c → isJsSpace c = false) :
    DisplayManager.matchSpeakerLabel
        ('[' :: (ds ++ ']' :: ':' :: (ws ++ rest))) =
      some ('[' :: ds ++ ']' :: ':' :: ws, rest) := by
  have htake : (ds ++ ']' :: ':' :: (ws ++ rest)).takeWhile Char.isDigit =
      ds :=
    takeWhile_append_of_all ds _ hd (by intro c hc; cases hc; decide)
  have hdrop : (ds ++ ']' :: ':' :: (ws ++ rest)).drop ds.length =
      ']' :: ':' :: (ws ++ rest) := List.drop_left ds _
  have htakews : (ws ++ rest).takeWhile isJsSpace = ws :=
    takeWhile_append_of_all ws rest hw hr
  have hdropws : (ws ++ rest).drop ws.length = rest := List.drop_left ws rest
  show (if ('[' : Char) = '[' then
      let ds' := (ds ++ ']' :: ':' :: (ws ++ rest)).takeWhile Char.isDigit
      if ds' = [] then none
      else
        match (ds ++ ']' :: ':' :: (ws ++ rest)).drop ds'.length with
        | c1 :: c2 :: afterColon =>
          if c1 = ']' then
            if c2 = ':' then
              let ws' := afterColon.takeWhile isJsSpace
              some ('[' :: ds' ++ c1 :: c2 :: ws', afterColon.drop ws'.length)
            else none
          else none
        | _ => none
    else none) = _
  rw [if_pos rfl]
  simp only [htake]
  rw [if_neg hds, hdrop]
  simp only [htakews, hdropws]
  simp

/-- Counterexample to claim C7: the label-preserving path only recognises
numeric labels (`/^\[\d+\]:\s*/`), so a line that begins with the speaker
label `[abc]:` is left whole - the punctuation after the label is not
stripped as the claim requires (it would give `"[abc]: hi"`). -/
theorem claim_C7_counterexample :
    DisplayManager.cleanTranscriptText "[abc]: ,hi" = "[abc]: ,hi"
    ∧ DisplayManager.cleanTranscriptText "[abc]: ,hi" ≠ "[abc]: hi" := by
  decide

/-- Claim C7 as amended: the cleanup strips the maximal leading run of the
punctuation characters `. , ; : ! ? 。 ， ； ： ！ ？` from each line's
content (and trims the result), and a leading *numeric* speaker label
`[<digits>]:` (with its following whitespace) is preserved, only the
content after it being stripped; a line with no such numeric label -
including one with a non-numeric `[<speakerId>]:` label - is stripped and
trimmed whole. -/
theorem claim_C7_amended_clean_lines (ds ws rest line : List Char) :
    (ds ≠ [] → (∀ c ∈ ds, c.isDigit = true) →
      (∀ c ∈ ws, isJsSpace c = true) →
      (∀ c, rest.head? = some c → isJsSpace c = false) →
      DisplayManager.cleanLine ('[' :: (ds ++ ']' :: ':' :: (ws ++ rest))) =
        ('[' :: ds ++ ']' :: ':' :: ws) ++
          trimChars (DisplayManager.stripLeadingPunct rest))
    ∧ (DisplayManager.matchSpeakerLabel line = none →
      DisplayManager.cleanLine line =
        trimChars (DisplayManager.stripLeadingPunct line))
    ∧ line.takeWhile DisplayManager.isPunct ++
        DisplayManager.stripLeadingPunct line = line
    ∧ (∀ c ∈ line.takeWhile DisplayManager.isPunct,
        DisplayManager.isPunct c = true)
    ∧ (∀ c, (DisplayManager.stripLeadingPunct line).head? = some c →
        DisplayManager.isPunct c = false)
    ∧ DisplayManager.cleanTranscriptText "[1]: ,hello\n..world" =
        "[1]: hello\nworld" := by
  refine ⟨?_, ?_, ?_, ?_, ?_, by decide⟩
  · intro hds hd hw hr
    unfold DisplayManager.cleanLine
    rw [matchSpeakerLabel_parse ds ws rest hds hd hw hr]
  · intro hnone
    unfold DisplayManager.cleanLine
    rw [hnone]
  · unfold DisplayManager.stripLeadingPunct
    exact List.takeWhile_append_dropWhile DisplayManager.isPunct line
  · intro c hc
    exact List.mem_takeWhile_imp hc
  · intro c hc
    cases hsp : DisplayManager.stripLeadingPunct line with
    | nil => rw [hsp] at hc; simp at hc
    | cons d rest' =>
      rw [hsp] at hc
      simp only [List.head?_cons, Option.some.injEq] at hc
      subst hc
      exact dropWhile_head_false hsp

/-- Witness for C7's amended claim: a numeric label keeps its label while
the content is stripped, and an unlabelled line is stripped whole. -/
theorem claim_C7_amended_clean_lines_witness :
    DisplayManager.cleanLine ("[1]: ,hi".data) = "[1]: hi".data
    ∧ DisplayManager.cleanLine (",,hi".data) = "hi".data := by
  have h := claim_C7_amended_clean_lines ['1'] [' '] (",hi".data) (",,hi".data)
  refine ⟨?_, ?_⟩
  · have h1 := h.1 (by decide) (by decide) (by decide) (by decide)
    exact h1.trans (by decide)
  · have h2 := h.2.1 (by decide)
    exact h2.trans (by decide)

/-! ## Claim C9 -/

lemma storeGet_storeSet_same (store : List (String × String))
    (key value : String) :
    SettingsManager.storeGet (SettingsManager.storeSet store key value) key =
      some value := by
  unfold SettingsManager.storeGet SettingsManager.storeSet
  rw [List.find?_cons_of_pos _ (by simp)]
  rfl

/-- Claim C9: `setDisplayLines(n)` with `n` outside `[2, 5]` raises the
descriptive validation error `"Lines must be between 2 and 5"` before any
mutation, leaving the stored setting and the display configuration
unchanged; with `n` inside `[2, 5]` it stores the value (re-read as `n`)
and applies it, the display's line budget becoming `n` clamped to the
profile's maximum. -/
theorem claim_C9_displayLines_validation (wrap : String → List String)
    (s : SettingsManager.SessionState) (n : Int) :
    (n < 2 ∨ 5 < n →
      SettingsManager.setDisplayLines wrap n s =
        (s, some "Lines must be between 2 and 5"))
    ∧ (2 ≤ n → n ≤ 5 →
      (SettingsManager.setDisplayLines wrap n s).2 = none
      ∧ SettingsManager.storeGet
          (SettingsManager.setDisplayLines wrap n s).1.store "displayLines" =
          some (toString n)
      ∧ SettingsManager.getDisplayLines
          (SettingsManager.setDisplayLines wrap n s).1.store = n
      ∧ (SettingsManager.setDisplayLines wrap n s).1.display.currentMaxLines =
          min (max 2 n).toNat s.display.currentProfile.maxLines) := by
  constructor
  · intro hbad
    unfold SettingsManager.setDisplayLines
    rw [if_pos hbad]
  · intro h2 h5
    have hok : ¬(n < 2 ∨ 5 < n) := by omega
    have hsds : SettingsManager.setDisplayLines wrap n s =
        (⟨SettingsManager.storeSet s.store "displayLines" (toString n),
          DisplayManager.updateSettings wrap s.display
            (SettingsManager.getDisplayWidth
              (SettingsManager.storeSet s.store "displayLines" (toString n)))
            (SettingsManager.getDisplayLines
              (SettingsManager.storeSet s.store "displayLines" (toString n)))
            true⟩, none) := by
      unfold SettingsManager.setDisplayLines
      rw [if_neg hok]
    have hget : SettingsManager.getDisplayLines
        (SettingsManager.storeSet s.store "displayLines" (toString n)) = n := by
      unfold SettingsManager.getDisplayLines
      rw [storeGet_storeSet_same]
      interval_cases n <;> decide
    refine ⟨by rw [hsds], by rw [hsds]; exact storeGet_storeSet_same .., ?_, ?_⟩
    · rw [hsds]
      exact hget
    · rw [hsds]
      show (DisplayManager.updateSettings wrap s.display _ _ true).currentMaxLines = _
      rw [show ∀ dw dl wb, (DisplayManager.updateSettings wrap s.display
          dw dl wb).currentMaxLines =
          min (max 2 dl).toNat s.display.currentProfile.maxLines from
        fun dw dl wb => rfl]
      rw [hget]

/-- Witness for C9: `setDisplayLines(7)` errors and keeps the state;
`setDisplayLines(4)` stores `"4"` and sets the line budget to 4. -/
theorem claim_C9_displayLines_validation_witness :
    (SettingsManager.setDisplayLines (fun s => [s]) 7
        ⟨[], ⟨2, 576, 5, true, DisplayManager.G1_PROFILE,
          mkFormatter 30 5⟩⟩ =
      (⟨[], ⟨2, 576, 5, true, DisplayManager.G1_PROFILE, mkFormatter 30 5⟩⟩,
        some "Lines must be between 2 and 5"))
    ∧ (SettingsManager.setDisplayLines (fun s => [s]) 4
        ⟨[], ⟨2, 576, 5, true, DisplayManager.G1_PROFILE,
          mkFormatter 30 5⟩⟩).1.display.currentMaxLines =
      min (max 2 (4 : Int)).toNat
        DisplayManager.G1_PROFILE.maxLines :=
  ⟨(claim_C9_displayLines_validation (fun s => [s])
      ⟨[], ⟨2, 576, 5, true, DisplayManager.G1_PROFILE, mkFormatter 30 5⟩⟩
      7).1 (by omega),
    ((claim_C9_displayLines_validation (fun s => [s])
      ⟨[], ⟨2, 576, 5, true, DisplayManager.G1_PROFILE, mkFormatter 30 5⟩⟩
      4).2 (by omega) (by omega)).2.2.2⟩

/-- Witness for C10: an interim arriving after a final and an older
interim leaves exactly one interim, at the end. -/
theorem claim_C10_single_interim_witness :
    ((TranscriptsManager.handleLegacy 100
        [⟨"a", none, "Speaker 1", "x", none, true, 0⟩,
          ⟨"b", none, "Speaker 1", "y", none, false, 1⟩]
        ⟨"c", none, "Speaker 1", "z", none, false, 2⟩).filter
          (fun t => !t.isFinal)).length ≤ 1 :=
  (claim_C10_single_interim 100
    [⟨"a", none, "Speaker 1", "x", none, true, 0⟩,
      ⟨"b", none, "Speaker 1", "y", none, false, 1⟩]
    ⟨"c", none, "Speaker 1", "z", none, false, 2⟩).1
